import Mathlib

/-!
# Verification of the shellbot event server

A shallow embedding of `event_server.py`: the `History` dedup ledger, the
`parse` tokenizer (mention stripping, full-width-space normalization,
Python `str.strip`, `shlex.split` in POSIX mode), the `execute` allowlist
runner, the `post` payload builder, and the `write` dispatcher.

Python exceptions are modelled explicitly: `parse` returns `Option`
(`none` = `shlex` raised `ValueError`), `execute` returns `Option`
(`none` = the `assert len(command) > 0` raised), `History.add` returns a
`Bool` raise flag (`set.remove` raises `KeyError` on a missing element),
and `write` reports in `WriteOut.raised` whether an exception escaped the
per-event processing.  The subprocess and the outbound webhook POST are
environment effects and enter as oracle parameters.  A Python `set` is
modelled as a duplicate-free list: only membership is observable, `add`
appends when absent, `remove` erases one occurrence.
-/

namespace EventServer

/-- Whitespace in the sense of Python `str.strip` (Unicode whitespace). -/
def pyIsSpace (c : Char) : Bool :=
  let n := c.toNat
  decide ((9 ≤ n ∧ n ≤ 13) ∨ (28 ≤ n ∧ n ≤ 31) ∨ n = 32 ∨ n = 133 ∨ n = 160 ∨
    n = 0x1680 ∨ (0x2000 ≤ n ∧ n ≤ 0x200A) ∨ n = 0x2028 ∨ n = 0x2029 ∨
    n = 0x202F ∨ n = 0x205F ∨ n = 0x3000)

/-- The full-width space U+3000 replaced by `re.sub("　", " ", text)`. -/
def fullWidthSpace : Char := Char.ofNat 0x3000

/-- Python `re.sub("　", " ", text)`: every occurrence of U+3000 becomes an
ordinary space. -/
def normalizeFW (l : List Char) : List Char :=
  l.map (fun c => if c = fullWidthSpace then ' ' else c)

/-- Python `text.strip()`: drop Unicode whitespace from both ends. -/
def pyStrip (l : List Char) : List Char :=
  ((l.dropWhile pyIsSpace).reverse.dropWhile pyIsSpace).reverse

/-- Drop characters up to and including the first `>` (the `[^>]*>` part of
the mention regex); `none` when no `>` occurs. -/
def dropThroughGt : List Char → Option (List Char)
  | [] => none
  | c :: rest => if c = '>' then some rest else dropThroughGt rest

/-- Python `re.sub(r"^<@[^>]*>", "", text)`: strip one mention tag anchored at the
start of the string (the anchor `^` can only match at position 0, so at
most one substitution happens). -/
def stripMentionChars (l : List Char) : List Char :=
  match l with
  | c1 :: c2 :: rest =>
    if c1 = '<' ∧ c2 = '@' then
      match dropThroughGt rest with
      | some rem => rem
      | none => l
    else l
  | _ => l

/-- Lexer modes of Python `shlex` in POSIX mode with `whitespace_split`. -/
inductive LexMode
  | normal
  | esc
  | squote
  | dquote
  | dqesc
deriving DecidableEq

/-- The `shlex.split` state machine (POSIX mode, `whitespace_split=True`,
no comment characters).  Arguments: remaining input, mode, current token,
whether a token is open (so `''` yields an empty token), tokens so far.
`none` models the `ValueError` raised on an unmatched quote or a trailing
escape character. -/
def shlexRun : List Char → LexMode → List Char → Bool → List (List Char) →
    Option (List (List Char))
  | [], .normal, tok, inTok, acc => some (if inTok then acc ++ [tok] else acc)
  | c :: rest, .normal, tok, inTok, acc =>
    if c = ' ' ∨ c = '\t' ∨ c = '\r' ∨ c = '\n' then
      shlexRun rest .normal [] false (if inTok then acc ++ [tok] else acc)
    else if c = '\'' then shlexRun rest .squote tok true acc
    else if c = '"' then shlexRun rest .dquote tok true acc
    else if c = '\\' then shlexRun rest .esc tok true acc
    else shlexRun rest .normal (tok ++ [c]) true acc
  | [], .esc, _, _, _ => none
  | c :: rest, .esc, tok, _, acc => shlexRun rest .normal (tok ++ [c]) true acc
  | [], .squote, _, _, _ => none
  | c :: rest, .squote, tok, _, acc =>
    if c = '\'' then shlexRun rest .normal tok true acc
    else shlexRun rest .squote (tok ++ [c]) true acc
  | [], .dquote, _, _, _ => none
  | c :: rest, .dquote, tok, _, acc =>
    if c = '"' then shlexRun rest .normal tok true acc
    else if c = '\\' then shlexRun rest .dqesc tok true acc
    else shlexRun rest .dquote (tok ++ [c]) true acc
  | [], .dqesc, _, _, _ => none
  | c :: rest, .dqesc, tok, _, acc =>
    if c = '"' ∨ c = '\\' then shlexRun rest .dquote (tok ++ [c]) true acc
    else shlexRun rest .dquote (tok ++ ['\\', c]) true acc

/-- Python `shlex.split(text)`; `none` models a raised `ValueError`. -/
def shlexSplit (l : List Char) : Option (List (List Char)) :=
  shlexRun l .normal [] false []

/-- The function `parse(text)`: strip one leading mention tag, normalize U+3000, strip
surrounding whitespace, split by POSIX shell word rules.  `none` models a
`ValueError` escaping from `shlex.split`. -/
def parse (text : String) : Option (List String) :=
  (shlexSplit (pyStrip (normalizeFW (stripMentionChars text.data)))).map
    (fun ts => ts.map (fun t => String.mk t))

/-- The `History` class state: `items` is the Python list, `items_set` the
Python set (modelled as a duplicate-free list, membership being its only
observable). -/
structure HistoryState (α : Type) where
  items : List α
  items_set : List α
deriving DecidableEq

/-- The capacity `History.hist_size = 100`. -/
def histSize : Nat := 100

/-- The initial (class-level) `History` state: both containers empty. -/
def emptyHistory (α : Type) : HistoryState α := ⟨[], []⟩

/-- Python `set.add`: append when absent, no-op on a duplicate. -/
def setAdd [DecidableEq α] (s : List α) (x : α) : List α :=
  if x ∈ s then s else s ++ [x]

/-- The method `History.contains(item)`: membership in `items_set`. -/
def History.contains [DecidableEq α] (st : HistoryState α) (item : α) : Bool :=
  decide (item ∈ st.items_set)

/-- The method `History.contains` as a state transformer: it reads `items_set` and
returns the state it was given. -/
def History.containsOp [DecidableEq α] (st : HistoryState α) (item : α) :
    Bool × HistoryState α :=
  (History.contains st item, st)

/-- The method `History.add(item)`: append to `items`, add to `items_set`; when the
list exceeds `hist_size`, remove `items[0]` from the set (Python
`set.remove` raises `KeyError` when absent — the `Bool` is the raise flag,
left `true` with the partially mutated state in that case) and drop it
from the list. -/
def History.add [DecidableEq α] (st : HistoryState α) (item : α) :
    HistoryState α × Bool :=
  let items1 := st.items ++ [item]
  let set1 := setAdd st.items_set item
  if items1.length > histSize then
    match items1 with
    | [] => (⟨items1, set1⟩, true)
    | r :: rest =>
      if r ∈ set1 then (⟨rest, set1.erase r⟩, false)
      else (⟨items1, set1⟩, true)
  else (⟨items1, set1⟩, false)

/-- Fold a sequence of `History.add` calls (states only). -/
def History.addAll [DecidableEq α] (xs : List α) (st : HistoryState α) :
    HistoryState α :=
  xs.foldl (fun s x => (History.add s x).1) st

/-- The `Result` class: two boolean flags and a data payload. -/
structure Result where
  is_success : Bool
  is_failed : Bool
  data : String
deriving DecidableEq

/-- The constructor `Result.success(data)`. -/
def Result.success (d : String) : Result := ⟨true, false, d⟩

/-- The constructor `Result.failed(data)`. -/
def Result.failed (d : String) : Result := ⟨false, true, d⟩

/-- Outcome of `subprocess.run(command, capture_output=True)` followed by
`proc.stdout.decode()`: either completion with an exit code and decoded
stdout, or a raised exception (spawn, capture or decode failure). -/
inductive ProcOutcome
  | completed (exitCode : Int) (stdout : String)
  | raised
deriving DecidableEq

/-- Trace entries of one dispatch: a subprocess run, a completed webhook
notification, a completed dedup marking. -/
inductive Action
  | run (command : List String)
  | notify (result : Result)
  | mark (id : String)
deriving DecidableEq

/-- The function `execute(command)` instrumented with its subprocess trace.  The
subprocess oracle `run` models the environment.  `none` in the second
component models the `assert len(command) > 0` failure; the exit code of a
completed process is ignored. -/
def executeTr (allows : List String) (run : List String → ProcOutcome)
    (command : List String) : List Action × Option Result :=
  match command with
  | [] => ([], none)
  | t :: _ =>
    if t ∈ allows then
      ([Action.run command],
        match run command with
        | .completed _ out => some (Result.success out)
        | .raised => some (Result.failed "Error: Something wrong?"))
    else
      ([], some (Result.failed ("Error: " ++ t ++ " is not allowed")))

/-- The function `execute(command) -> Result`; `none` models the raised
`AssertionError` on an empty command. -/
def execute (allows : List String) (run : List String → ProcOutcome)
    (command : List String) : Option Result :=
  (executeTr allows run command).2

/-- The `slack` section of the configuration. -/
structure SlackConfig where
  webhook : String
  channel : String
  username : String
  icon : Option String

/-- One entry of the `fields` list of the webhook payload. -/
structure SlackField where
  title : String
  value : String
  short : Bool
deriving DecidableEq

/-- The JSON payload `post` builds for the incoming webhook. -/
structure Payload where
  username : String
  channel : String
  color : String
  fields : List SlackField
  icon_emoji : Option String := none
  icon_url : Option String := none
deriving DecidableEq

/-- The function `post(result)` up to the outbound `requests.post` call: the payload it
builds from the configuration and the result. -/
def post (cfg : SlackConfig) (result : Result) : Payload :=
  let channel := if cfg.channel.startsWith "#" then cfg.channel
    else "#" ++ cfg.channel
  let color := if result.is_success then "#202020" else "#f02020"
  let base : Payload :=
    { username := cfg.username, channel := channel, color := color,
      fields := [{ title := "", value := result.data, short := false }] }
  match cfg.icon with
  | none => base
  | some icon =>
    if icon.startsWith ":" then { base with icon_emoji := some icon }
    else if icon.startsWith "http" then { base with icon_url := some icon }
    else base

/-- The inner Slack event object. -/
structure Event where
  client_msg_id : String
  type : String
  text : String
  user : String
  ts : String
  team : String
  blocks : List String
  channel : String
  event_ts : String

/-- The event envelope (`EventBox`). -/
structure EventBox where
  token : String
  team_id : String
  api_app_id : String
  event : Event
  type : String
  event_id : String
  event_time : Int
  authorizations : List String
  is_ext_shared_channel : Bool
  event_context : String

/-- Outcome of one `write(item)` call: the trace of completed actions, the
`History` state afterwards, and whether an exception escaped `write`. -/
structure WriteOut where
  actions : List Action
  state : HistoryState String
  raised : Bool
deriving DecidableEq

/-- The dispatcher `write(item)`: skip when the event id is already recorded; otherwise
parse, execute, post, and only then `History.add` the id.  `postOk` is the
webhook oracle (`false` = `requests.post` raised).  Any raised exception
(parse `ValueError`, the empty-command `AssertionError`, a webhook error,
a `KeyError` inside `add`) escapes `write` uncaught: `raised := true` and
the steps after the raise do not happen. -/
def write (allows : List String) (run : List String → ProcOutcome)
    (postOk : Result → Bool) (st : HistoryState String) (item : EventBox) :
    WriteOut :=
  if History.contains st item.event_id then
    ⟨[], st, false⟩
  else
    match parse item.event.text with
    | none => ⟨[], st, true⟩
    | some command =>
      match executeTr allows run command with
      | (acts, none) => ⟨acts, st, true⟩
      | (acts, some result) =>
        if postOk result then
          match History.add st item.event_id with
          | (st2, false) =>
            ⟨acts ++ [Action.notify result, Action.mark item.event_id], st2,
              false⟩
          | (st2, true) => ⟨acts ++ [Action.notify result], st2, true⟩
        else ⟨acts, st, true⟩

/-- A sample inner event whose text mentions the bot and asks for `echo hi`. -/
def demoEvent : Event :=
  ⟨"m1", "app_mention", "<@U0> echo hi", "U1", "1", "T1", [], "C1", "1"⟩

/-- A sample event envelope with event id `E1`. -/
def demoItem : EventBox :=
  ⟨"tok", "T1", "A1", demoEvent, "event_callback", "E1", 1, [], false, "ctx"⟩

/-- An inner event whose text has an unmatched quote, so `shlex.split`
raises `ValueError`. -/
def quoteEvent : Event :=
  ⟨"m2", "app_mention", "echo 'oops", "U1", "2", "T1", [], "C1", "2"⟩

/-- An event envelope (id `E2`) carrying the unmatched-quote text. -/
def quoteItem : EventBox :=
  ⟨"tok", "T1", "A1", quoteEvent, "event_callback", "E2", 2, [], false, "ctx"⟩

lemma parse_mention_example :
    parse "<@U123> deploy --env prod" = some ["deploy", "--env", "prod"] := by
  decide

lemma parse_fullwidth_example : parse "<@U1>　ls　-la" = some ["ls", "-la"] := by
  decide

lemma parse_empty_example : parse "" = some [] := by decide

lemma parse_quoted_example : parse "echo 'a b'" = some ["echo", "a b"] := by
  decide

lemma parse_unmatched_quote_example : parse "echo 'a b" = none := by decide

/-! ## Helper lemmas -/

lemma dropThroughGt_append (a rest : List Char) (ha : '>' ∉ a) :
    dropThroughGt (a ++ '>' :: rest) = some rest := by
  induction a with
  | nil => simp [dropThroughGt]
  | cons c tl ih =>
    have hc : c ≠ '>' := fun h => ha (h ▸ List.mem_cons_self c tl)
    have htl : '>' ∉ tl := fun h => ha (List.mem_cons_of_mem _ h)
    simp [dropThroughGt, hc, ih htl]

lemma setAdd_mem {α : Type} [DecidableEq α] {s : List α} {x y : α} :
    y ∈ setAdd s x ↔ y ∈ s ∨ y = x := by
  unfold setAdd
  split
  · next hx =>
    constructor
    · exact fun h => Or.inl h
    · rintro (h | rfl)
      · exact h
      · exact hx
  · simp

lemma setAdd_of_not_mem {α : Type} [DecidableEq α] {s : List α} {x : α}
    (h : x ∉ s) : setAdd s x = s ++ [x] := by
  unfold setAdd
  simp [h]

lemma executeTr_actions (allows : List String) (run : List String → ProcOutcome)
    (cmd : List String) :
    ∀ a ∈ (executeTr allows run cmd).1, ∃ c, a = Action.run c := by
  intro a ha
  cases cmd with
  | nil => simp [executeTr] at ha
  | cons t ts =>
    by_cases ht : t ∈ allows
    · simp [executeTr, ht] at ha
      exact ⟨t :: ts, ha⟩
    · simp [executeTr, ht] at ha

/-! ## Claim theorems: executor -/

/-- C1 (counterexample): `execute([])` does not return a `Failure` value;
the `assert len(command) > 0` raises an `AssertionError` to the caller
(modelled as `none`), refuting both halves of the claim at the concrete
input `[]`. -/
theorem c1_counterexample :
    execute ["echo"] (fun _ => ProcOutcome.completed 0 "ok") [] = none := rfl

/-- C1 (amended): for every nonempty command, `execute` never raises, and
when the first token is not in the allowlist it returns
`Failure("Error: <token> is not allowed")`; for the empty command it
raises an `AssertionError` instead of returning a value. -/
theorem c1_execute_allowlist (allows : List String)
    (run : List String → ProcOutcome) (command : List String) :
    (command = [] → execute allows run command = none) ∧
    (command ≠ [] → (execute allows run command).isSome = true) ∧
    (∀ t ts, command = t :: ts → t ∉ allows →
      execute allows run command =
        some (Result.failed ("Error: " ++ t ++ " is not allowed"))) := by
  refine ⟨?_, ?_, ?_⟩
  · rintro rfl
    rfl
  · intro h
    cases command with
    | nil => exact absurd rfl h
    | cons t ts =>
      by_cases ht : t ∈ allows
      · unfold execute executeTr
        simp only [ht, if_true, if_pos]
        cases run (t :: ts) <;> rfl
      · unfold execute executeTr
        simp [ht]
  · rintro t ts rfl ht
    unfold execute executeTr
    simp [ht]

/-- C1 witness: `rm` absent from the allowlist yields the named failure. -/
theorem c1_execute_allowlist_witness :
    execute ["echo"] (fun _ => ProcOutcome.completed 0 "") ["rm", "-rf", "/"] =
      some (Result.failed "Error: rm is not allowed") :=
  (c1_execute_allowlist ["echo"] (fun _ => ProcOutcome.completed 0 "")
    ["rm", "-rf", "/"]).2.2 "rm" ["-rf", "/"] rfl (by decide)

/-- C7: for an allowlisted nonempty command, a completed subprocess yields
`Success` with the captured stdout — the exit code is never inspected —
and only a raised exception during spawn/capture/decode yields
`Failure("Error: Something wrong?")`. -/
theorem c7_execute_ignores_exit_code (allows : List String)
    (run : List String → ProcOutcome) (t : String) (ts : List String)
    (hmem : t ∈ allows) :
    (∀ code out, run (t :: ts) = ProcOutcome.completed code out →
      execute allows run (t :: ts) = some (Result.success out)) ∧
    (run (t :: ts) = ProcOutcome.raised →
      execute allows run (t :: ts) =
        some (Result.failed "Error: Something wrong?")) ∧
    (execute allows run (t :: ts) =
        some (Result.failed "Error: Something wrong?") →
      run (t :: ts) = ProcOutcome.raised) := by
  refine ⟨?_, ?_, ?_⟩
  · intro code out h
    unfold execute executeTr
    simp [hmem, h]
  · intro h
    unfold execute executeTr
    simp [hmem, h]
  · intro h
    cases hcase : run (t :: ts) with
    | completed code out =>
      unfold execute executeTr at h
      simp [hmem, hcase, Result.success, Result.failed] at h
    | raised => rfl

/-- C7 witness: `echo` allowlisted, process completes with exit code `1`
and stdout `"hi\n"`; `execute` still returns `Success("hi\n")`. -/
theorem c7_execute_ignores_exit_code_witness :
    execute ["echo"] (fun _ => ProcOutcome.completed 1 "hi\n") ["echo", "hi"] =
      some (Result.success "hi\n") :=
  (c7_execute_ignores_exit_code ["echo"] (fun _ => ProcOutcome.completed 1 "hi\n")
    "echo" ["hi"] (by decide)).1 1 "hi\n" rfl

/-! ## Claim theorems: notifier -/

lemma post_fields (cfg : SlackConfig) (r : Result) :
    (post cfg r).color = (if r.is_success then "#202020" else "#f02020") ∧
    (post cfg r).channel =
      (if cfg.channel.startsWith "#" then cfg.channel
       else "#" ++ cfg.channel) ∧
    (post cfg r).icon_emoji =
      (match cfg.icon with
       | none => none
       | some icon => if icon.startsWith ":" then some icon else none) ∧
    (post cfg r).icon_url =
      (match cfg.icon with
       | none => none
       | some icon =>
         if icon.startsWith ":" then none
         else if icon.startsWith "http" then some icon else none) := by
  unfold post
  cases cfg.icon with
  | none => exact ⟨rfl, rfl, rfl, rfl⟩
  | some icon =>
    by_cases h1 : icon.startsWith ":"
    · simp [h1]
    · by_cases h2 : icon.startsWith "http"
      · simp [h1, h2]
      · simp [h1, h2]

/-- C8: the payload `post` builds uses color `#202020` for `Success` and
`#f02020` for `Failure`; the channel gets a leading `#` exactly when the
configured value lacks one; the icon is an emoji field when the configured
icon starts with `:`, a URL field when it starts with `http`, and no icon
field is set otherwise or when the icon is absent. -/
theorem c8_post_payload (cfg : SlackConfig) (d : String) :
    (post cfg (Result.success d)).color = "#202020" ∧
    (post cfg (Result.failed d)).color = "#f02020" ∧
    (∀ r : Result, (post cfg r).channel =
      if cfg.channel.startsWith "#" then cfg.channel
      else "#" ++ cfg.channel) ∧
    (∀ r : Result, (post cfg r).icon_emoji =
      (match cfg.icon with
       | none => none
       | some icon => if icon.startsWith ":" then some icon else none)) ∧
    (∀ r : Result, (post cfg r).icon_url =
      (match cfg.icon with
       | none => none
       | some icon =>
         if icon.startsWith ":" then none
         else if icon.startsWith "http" then some icon else none)) := by
  refine ⟨?_, ?_, fun r => (post_fields cfg r).2.1,
    fun r => (post_fields cfg r).2.2.1, fun r => (post_fields cfg r).2.2.2⟩
  · have h := (post_fields cfg (Result.success d)).1
    simpa [Result.success] using h
  · have h := (post_fields cfg (Result.failed d)).1
    simpa [Result.failed] using h

/-! ## Claim theorems: parser -/

/-- C6: `parse` strips one leading mention tag `<@...>` anchored at the
start, replaces every U+3000 with an ordinary space, trims surrounding
whitespace and splits by POSIX shell word rules; the mention example
tokenizes as claimed, the full-width-space example normalizes, and any
text that is empty after trimming yields the empty token sequence. -/
theorem c6_parse_pipeline :
    parse "<@U123> deploy --env prod" = some ["deploy", "--env", "prod"] ∧
    parse "<@U1>　ls　-la" = some ["ls", "-la"] ∧
    (∀ a rest : List Char, '>' ∉ a →
      stripMentionChars ('<' :: '@' :: (a ++ '>' :: rest)) = rest) ∧
    (∀ s : String, pyStrip (normalizeFW (stripMentionChars s.data)) = [] →
      parse s = some []) := by
  refine ⟨by decide, by decide, ?_, ?_⟩
  · intro a rest ha
    simp only [stripMentionChars]
    rw [dropThroughGt_append a rest ha]
    simp
  · intro s h
    unfold parse
    rw [h]
    rfl

/-- C6 witness: stripping one concrete mention tag, and the empty text
parsing to the empty token sequence. -/
theorem c6_parse_pipeline_witness :
    stripMentionChars ('<' :: '@' :: (['U'] ++ '>' :: [' ', 'l', 's'])) =
      [' ', 'l', 's'] ∧
    parse "" = some [] :=
  ⟨c6_parse_pipeline.2.2.1 ['U'] [' ', 'l', 's'] (by decide),
   c6_parse_pipeline.2.2.2 "" (by decide)⟩

/-- C9: the mention regex is applied once and anchored: with two
consecutive leading mention tags only the first is stripped, and the
second tag survives into the first token of the parse. -/
theorem c9_single_tag_strip :
    (∀ a b rest : List Char, '>' ∉ a → '>' ∉ b →
      stripMentionChars
          ('<' :: '@' :: (a ++ '>' :: ('<' :: '@' :: (b ++ '>' :: rest)))) =
        '<' :: '@' :: (b ++ '>' :: rest)) ∧
    parse "<@U1><@U2> ls" = some ["<@U2>", "ls"] := by
  constructor
  · intro a b rest ha hb
    simp only [stripMentionChars]
    rw [dropThroughGt_append a ('<' :: '@' :: (b ++ '>' :: rest)) ha]
    simp
  · decide

/-- C9 witness: the double-tag strip at a concrete input. -/
theorem c9_single_tag_strip_witness :
    stripMentionChars
        ('<' :: '@' :: (['U', '1'] ++ '>' ::
          ('<' :: '@' :: (['U', '2'] ++ '>' :: [' ', 'l', 's'])))) =
      '<' :: '@' :: (['U', '2'] ++ '>' :: [' ', 'l', 's']) :=
  c9_single_tag_strip.1 ['U', '1'] ['U', '2'] [' ', 'l', 's']
    (by decide) (by decide)

/-! ## Claim theorems: dispatcher error path and frame conditions -/

/-- C2 (counterexample): with the unmatched-quote text `echo 'oops` and an
unseen event id, `write` performs no notification at all (`actions = []`)
and the `ValueError` escapes uncaught (`raised = true`) — the parse
failure is not routed through the notifier, refuting the claim. -/
theorem c2_counterexample :
    (write ["echo"] (fun _ => ProcOutcome.raised) (fun _ => true)
      (emptyHistory String) quoteItem).actions = [] ∧
    (write ["echo"] (fun _ => ProcOutcome.raised) (fun _ => true)
      (emptyHistory String) quoteItem).raised = true := by
  constructor <;> rfl

/-- C2 (amended): when tokenization of the message text fails, the
exception propagates uncaught out of the per-event processing: no
notification is delivered, the ledger is unchanged, and the event id is
not marked. -/
theorem c2_parse_failure_escapes (allows : List String)
    (run : List String → ProcOutcome) (postOk : Result → Bool)
    (st : HistoryState String) (item : EventBox)
    (hdup : History.contains st item.event_id = false)
    (hparse : parse item.event.text = none) :
    write allows run postOk st item = ⟨[], st, true⟩ := by
  unfold write
  rw [hdup, hparse]
  rfl

/-- C2 witness: the unmatched-quote event against the empty ledger. -/
theorem c2_parse_failure_escapes_witness :
    write ["echo"] (fun _ => ProcOutcome.raised) (fun _ => true)
      (emptyHistory String) quoteItem = ⟨[], emptyHistory String, true⟩ :=
  c2_parse_failure_escapes ["echo"] (fun _ => ProcOutcome.raised)
    (fun _ => true) (emptyHistory String) quoteItem (by decide) (by decide)

/-- C10: `contains` never mutates the ledger (as a state transformer it
returns its input state), and across the whole dispatch the ledger state
is either untouched or exactly the result of the single `History.add`
call on the event id — `parse`, `execute` and `post` take no ledger and
change nothing. -/
theorem c10_frame {α : Type} [DecidableEq α] :
    (∀ (st : HistoryState α) (x : α), (History.containsOp st x).2 = st) ∧
    (∀ (allows : List String) (run : List String → ProcOutcome)
      (postOk : Result → Bool) (st : HistoryState String) (item : EventBox),
      (write allows run postOk st item).state = st ∨
      (write allows run postOk st item).state =
        (History.add st item.event_id).1) := by
  refine ⟨fun st x => rfl, fun allows run postOk st item => ?_⟩
  unfold write
  split
  · exact Or.inl rfl
  · split
    · exact Or.inl rfl
    · split
      · exact Or.inl rfl
      · split
        · split
          · next heq => exact Or.inr (by rw [heq])
          · next heq => exact Or.inr (by rw [heq])
        · exact Or.inl rfl

/-! ## Dedup ledger lemmas -/

lemma add_step {α : Type} [DecidableEq α] {st : HistoryState α} {x : α}
    (hset : st.items_set = st.items) (hx : x ∉ st.items)
    (hlen : st.items.length ≤ histSize) :
    History.add st x =
      (⟨(st.items ++ [x]).drop (st.items.length + 1 - histSize),
        (st.items ++ [x]).drop (st.items.length + 1 - histSize)⟩, false) := by
  have hx' : x ∉ st.items_set := by rw [hset]; exact hx
  have hsa : setAdd st.items_set x = st.items ++ [x] := by
    rw [hset]; exact setAdd_of_not_mem hx
  unfold History.add
  rw [hsa]
  by_cases hl : st.items.length = histSize
  · have hgt : (st.items ++ [x]).length > histSize := by
      simp [List.length_append, hl]
    rw [if_pos hgt]
    obtain ⟨r, tl, hcons⟩ : ∃ r tl, st.items = r :: tl := by
      cases hitems : st.items with
      | nil => rw [hitems] at hl; simp [histSize] at hl
      | cons r tl => exact ⟨r, tl, rfl⟩
    rw [hcons]
    have hidx : (r :: tl).length + 1 - histSize = 1 := by
      rw [← hcons, hl]; omega
    rw [hidx]
    simp only [List.cons_append]
    rw [if_pos (List.mem_cons_self r (tl ++ [x]))]
    rw [List.erase_cons_head]
    simp
  · have hlt : st.items.length < histSize := lt_of_le_of_ne hlen hl
    have hng : ¬ (st.items ++ [x]).length > histSize := by
      simp [List.length_append]
      omega
    rw [if_neg hng]
    have hidx : st.items.length + 1 - histSize = 0 := by omega
    rw [hidx, List.drop_zero]

lemma drop_window {α : Type} (ys : List α) (y : α) :
    ((ys.drop (ys.length - histSize)) ++ [y]).drop
        ((ys.drop (ys.length - histSize)).length + 1 - histSize) =
      (ys ++ [y]).drop (ys.length + 1 - histSize) := by
  have h100 : histSize = 100 := rfl
  by_cases hl : ys.length < histSize
  · have h1 : ys.length - histSize = 0 := by omega
    rw [h1, List.drop_zero]
  · push_neg at hl
    have hDlen : (ys.drop (ys.length - histSize)).length = histSize := by
      rw [List.length_drop]; omega
    rw [hDlen]
    have h1 : histSize + 1 - histSize = 1 := by omega
    rw [h1]
    rw [List.drop_append_of_le_length (by rw [hDlen]; omega)]
    rw [List.drop_drop]
    have h2 : ys.length + 1 - histSize = ys.length - histSize + 1 := by omega
    rw [h2]
    rw [List.drop_append_of_le_length (by omega)]

lemma addAll_empty_spec {α : Type} [DecidableEq α] (xs : List α)
    (h : xs.Nodup) :
    History.addAll xs (emptyHistory α) =
      ⟨xs.drop (xs.length - histSize), xs.drop (xs.length - histSize)⟩ := by
  induction xs using List.reverseRecOn with
  | nil => simp [History.addAll, emptyHistory]
  | append_singleton ys y ih =>
    have hnd := List.nodup_append.mp h
    have hys : ys.Nodup := hnd.1
    have hy : y ∉ ys := fun hmem => hnd.2.2 hmem (List.mem_singleton.mpr rfl)
    have hstep : History.addAll (ys ++ [y]) (emptyHistory α) =
        (History.add (History.addAll ys (emptyHistory α)) y).1 := by
      unfold History.addAll
      rw [List.foldl_append]
      rfl
    rw [hstep, ih hys]
    have hyD : y ∉ ys.drop (ys.length - histSize) :=
      fun hmem => hy ((List.drop_sublist _ _).subset hmem)
    have hDlen : (ys.drop (ys.length - histSize)).length ≤ histSize := by
      rw [List.length_drop]; omega
    rw [add_step rfl hyD hDlen]
    have hw := drop_window ys y
    have hlen2 : (ys ++ [y]).length = ys.length + 1 := by
      simp [List.length_append]
    rw [hlen2, hw]

lemma add_no_raise {α : Type} [DecidableEq α] {st : HistoryState α}
    (hset : st.items_set = st.items) (x : α) :
    (History.add st x).2 = false := by
  simp only [History.add]
  split
  · next hgt =>
    split
    · next heq => simp at heq
    · next r rest heq =>
      have hr : r ∈ setAdd st.items_set x := by
        rcases hcase : st.items with _ | ⟨a, tl⟩
        · rw [hcase] at heq
          simp at heq
          rw [setAdd_mem]
          exact Or.inr heq.1.symm
        · rw [hcase] at heq
          simp at heq
          rw [setAdd_mem, hset, hcase]
          exact Or.inl (heq.1 ▸ List.mem_cons_self a tl)
      rw [if_pos hr]
  · rfl

lemma contains_add_self {α : Type} [DecidableEq α] {st : HistoryState α}
    {x : α} (hset : st.items_set = st.items)
    (hx : History.contains st x = false) :
    History.contains (History.add st x).1 x = true := by
  have hx' : x ∉ st.items_set := by
    simpa [History.contains] using hx
  unfold History.contains
  simp only [History.add]
  split
  · next hgt =>
    split
    · next heq => simp at heq
    · next r rest heq =>
      split
      · next hr =>
        have hxr : x ≠ r := by
          rcases hcase : st.items with _ | ⟨a, tl⟩
          · rw [hcase] at hgt
            simp [histSize] at hgt
          · rw [hcase] at heq
            simp at heq
            intro hxeq
            apply hx'
            rw [hset, hcase]
            rw [hxeq, ← heq.1]
            exact List.mem_cons_self a tl
        simp [List.mem_erase_of_ne hxr, setAdd_mem]
      · next hr =>
        simp [setAdd_mem]
  · simp [setAdd_mem]

/-! ## Claim theorems: dedup ledger -/

set_option maxRecDepth 10000 in
/-- C3 (counterexample): the claim quantifies over sequences that add the
same id more than once.  Adding `0, 1, ..., 99` and then `0` again leaves
`0` in the ordered sequence while the eviction removed `0` from the
membership set, so set content no longer equals sequence content. -/
theorem c3_counterexample :
    0 ∈ (History.addAll ((List.range 100) ++ [0]) (emptyHistory Nat)).items ∧
    0 ∉ (History.addAll ((List.range 100) ++ [0])
      (emptyHistory Nat)).items_set := by
  decide

/-- C3 (amended): provided an id is never added while still present in the
sequence (which the dispatcher guarantees via its `contains` guard), each
`add` keeps set content equal to sequence content, keeps the sequence
duplicate-free, keeps the length at most 100, evicts exactly the single
oldest entry when the size would exceed 100, and raises nothing. -/
theorem c3_dedup_invariant {α : Type} [DecidableEq α] (st : HistoryState α)
    (x : α) (hset : st.items_set = st.items) (hnd : st.items.Nodup)
    (hlen : st.items.length ≤ histSize) (hx : x ∉ st.items) :
    (History.add st x).2 = false ∧
    (History.add st x).1.items_set = (History.add st x).1.items ∧
    (History.add st x).1.items.Nodup ∧
    (History.add st x).1.items.length ≤ histSize ∧
    (History.add st x).1.items =
      (if st.items.length + 1 > histSize then st.items.drop 1 ++ [x]
       else st.items ++ [x]) := by
  have h100 : histSize = 100 := rfl
  rw [add_step hset hx hlen]
  have happ : (st.items ++ [x]).Nodup := by
    rw [List.nodup_append]
    refine ⟨hnd, List.nodup_singleton x, ?_⟩
    intro a ha hmem
    rw [List.mem_singleton] at hmem
    exact hx (hmem ▸ ha)
  refine ⟨rfl, rfl, ?_, ?_, ?_⟩
  · exact happ.sublist (List.drop_sublist _ _)
  · rw [List.length_drop]
    simp only [List.length_append, List.length_singleton]
    omega
  · by_cases hl : st.items.length + 1 > histSize
    · rw [if_pos hl]
      have hl2 : st.items.length = histSize := by omega
      have hidx : st.items.length + 1 - histSize = 1 := by omega
      rw [hidx]
      rw [List.drop_append_of_le_length (by omega)]
    · rw [if_neg hl]
      have hidx : st.items.length + 1 - histSize = 0 := by omega
      rw [hidx, List.drop_zero]

/-- C3 witness: the amended invariant at the empty ledger and id `7`. -/
theorem c3_dedup_invariant_witness :
    (History.add (emptyHistory Nat) 7).2 = false ∧
    (History.add (emptyHistory Nat) 7).1.items_set =
      (History.add (emptyHistory Nat) 7).1.items ∧
    (History.add (emptyHistory Nat) 7).1.items.Nodup ∧
    (History.add (emptyHistory Nat) 7).1.items.length ≤ histSize ∧
    (History.add (emptyHistory Nat) 7).1.items =
      (if (emptyHistory Nat).items.length + 1 > histSize
       then (emptyHistory Nat).items.drop 1 ++ [7]
       else (emptyHistory Nat).items ++ [7]) :=
  c3_dedup_invariant (emptyHistory Nat) 7 rfl (by simp [emptyHistory])
    (by simp [emptyHistory, histSize]) (by simp [emptyHistory])

/-- C4: for a sequence of distinct adds from the empty ledger,
`contains i` afterwards is true exactly when fewer than 100 ids followed
`i` (true immediately after `add i`, false once 100 subsequent distinct
ids have been added), and the retained sequence is exactly the 100
most-recently-added ids, oldest evicted first. -/
theorem c4_contains_window {α : Type} [DecidableEq α] (xs ys : List α)
    (i : α) (h : (xs ++ i :: ys).Nodup) :
    History.contains (History.addAll (xs ++ i :: ys) (emptyHistory α)) i =
      decide (ys.length < histSize) ∧
    (History.addAll (xs ++ i :: ys) (emptyHistory α)).items =
      (xs ++ i :: ys).drop ((xs ++ i :: ys).length - histSize) := by
  have hspec := addAll_empty_spec (xs ++ i :: ys) h
  refine ⟨?_, by rw [hspec]⟩
  rw [History.contains, hspec]
  rw [decide_eq_decide]
  have h100 : histSize = 100 := rfl
  have hlen : (xs ++ i :: ys).length = xs.length + ys.length + 1 := by
    simp [List.length_append]
    omega
  constructor
  · intro hmem
    by_contra hge
    push_neg at hge
    rw [List.drop_append_eq_append_drop] at hmem
    have hxs : xs.drop ((xs ++ i :: ys).length - histSize) = [] :=
      List.drop_eq_nil_of_le (by omega)
    rw [hxs, List.nil_append] at hmem
    obtain ⟨m, hm⟩ : ∃ m,
        (xs ++ i :: ys).length - histSize - xs.length = m + 1 :=
      ⟨(xs ++ i :: ys).length - histSize - xs.length - 1, by omega⟩
    rw [hm, List.drop_succ_cons] at hmem
    have hiys : i ∉ ys := (List.nodup_cons.mp (List.nodup_append.mp h).2.1).1
    exact hiys ((List.drop_sublist _ _).subset hmem)
  · intro hlt
    have hk : (xs ++ i :: ys).length - histSize ≤ xs.length := by omega
    rw [List.drop_append_of_le_length hk]
    exact List.mem_append_right _ (List.mem_cons_self i ys)

/-- C4 witness: a single add of `5`; `contains` is true right after. -/
theorem c4_contains_window_witness :
    History.contains (History.addAll ([] ++ 5 :: []) (emptyHistory Nat)) 5 =
      decide (List.length ([] : List Nat) < histSize) ∧
    (History.addAll ([] ++ 5 :: []) (emptyHistory Nat)).items =
      ([] ++ 5 :: []).drop (([] ++ (5 : Nat) :: []).length - histSize) :=
  c4_contains_window [] [] 5 (by simp)

/-! ## Claim theorems: dispatcher ordering -/

lemma write_step {allows : List String} {run : List String → ProcOutcome}
    {postOk : Result → Bool} {st : HistoryState String} {item : EventBox}
    (hc : History.contains st item.event_id = false) :
    write allows run postOk st item =
      match parse item.event.text with
      | none => ⟨[], st, true⟩
      | some command =>
        match executeTr allows run command with
        | (acts, none) => ⟨acts, st, true⟩
        | (acts, some result) =>
          if postOk result then
            match History.add st item.event_id with
            | (st2, false) =>
              ⟨acts ++ [Action.notify result, Action.mark item.event_id],
                st2, false⟩
            | (st2, true) => ⟨acts ++ [Action.notify result], st2, true⟩
          else ⟨acts, st, true⟩ := by
  unfold write
  rw [hc]
  simp

/-- C5: an event whose id is already in the ledger is skipped — no
execution, no notification, no state change; otherwise the pipeline runs
parse, execute, notify in order and marks the id only after all three
completed (the mark is the last action), so an interrupted run leaves the
ledger unchanged and the id unrecorded, while a completed run records the
id so a re-delivery is skipped. -/
theorem c5_dispatch (allows : List String) (run : List String → ProcOutcome)
    (postOk : Result → Bool) (st : HistoryState String) (item : EventBox)
    (hset : st.items_set = st.items) :
    (History.contains st item.event_id = true →
      write allows run postOk st item = ⟨[], st, false⟩) ∧
    (History.contains st item.event_id = false →
      ((write allows run postOk st item).raised = true →
        (write allows run postOk st item).state = st ∧
        ∀ x, Action.mark x ∉ (write allows run postOk st item).actions) ∧
      ((write allows run postOk st item).raised = false →
        History.contains (write allows run postOk st item).state
          item.event_id = true ∧
        ∃ r pre, (write allows run postOk st item).actions =
            pre ++ [Action.notify r, Action.mark item.event_id] ∧
          ∀ a ∈ pre, ∃ c, a = Action.run c)) := by
  by_cases hc : History.contains st item.event_id = true
  · refine ⟨fun _ => ?_, fun hfalse => absurd hc (by simp [hfalse])⟩
    unfold write
    rw [hc]
    simp
  · have hc' : History.contains st item.event_id = false := by
      cases hb : History.contains st item.event_id
      · rfl
      · exact absurd hb hc
    refine ⟨fun htrue => absurd htrue hc, fun _ => ?_⟩
    cases hp : parse item.event.text with
    | none =>
      have hw : write allows run postOk st item = ⟨[], st, true⟩ := by
        rw [write_step hc', hp]
      rw [hw]
      exact ⟨fun _ => ⟨rfl, fun x => List.not_mem_nil _⟩,
        fun habs => by simp at habs⟩
    | some cmd =>
      rcases he : executeTr allows run cmd with ⟨acts, res⟩
      have hacts : ∀ a ∈ acts, ∃ c, a = Action.run c := by
        intro a ha
        have h2 := executeTr_actions allows run cmd a
        rw [he] at h2
        exact h2 ha
      have hnomark : ∀ x, Action.mark x ∉ acts := by
        intro x hmem
        obtain ⟨c, hcc⟩ := hacts _ hmem
        exact Action.noConfusion hcc
      cases res with
      | none =>
        have hw : write allows run postOk st item = ⟨acts, st, true⟩ := by
          rw [write_step hc', hp]
          dsimp only
          rw [he]
        rw [hw]
        exact ⟨fun _ => ⟨rfl, hnomark⟩, fun habs => by simp at habs⟩
      | some result =>
        by_cases hpo : postOk result = true
        · rcases ha : History.add st item.event_id with ⟨st2, b⟩
          have hb : b = false := by
            have h2 := add_no_raise hset item.event_id
            rw [ha] at h2
            exact h2
          subst hb
          have hw : write allows run postOk st item =
              ⟨acts ++ [Action.notify result, Action.mark item.event_id],
                st2, false⟩ := by
            rw [write_step hc', hp]
            dsimp only
            rw [he]
            dsimp only
            rw [if_pos hpo, ha]
          rw [hw]
          refine ⟨fun habs => by simp at habs, fun _ => ⟨?_, ?_⟩⟩
          · have h2 := contains_add_self hset hc'
            rw [ha] at h2
            exact h2
          · exact ⟨result, acts, rfl, hacts⟩
        · have hpo' : postOk result = false := by
            cases hb : postOk result
            · rfl
            · exact absurd hb hpo
          have hw : write allows run postOk st item = ⟨acts, st, true⟩ := by
            rw [write_step hc', hp]
            dsimp only
            rw [he]
            dsimp only
            rw [if_neg (by simp [hpo'])]
          rw [hw]
          exact ⟨fun _ => ⟨rfl, hnomark⟩, fun habs => by simp at habs⟩

/-- C5 witness: a re-delivered id (`E1` already in the ledger) is skipped
with no actions and no state change. -/
theorem c5_dispatch_witness :
    write ["echo"] (fun _ => ProcOutcome.raised) (fun _ => true)
      ⟨["E1"], ["E1"]⟩ demoItem = ⟨[], ⟨["E1"], ["E1"]⟩, false⟩ :=
  (c5_dispatch ["echo"] (fun _ => ProcOutcome.raised) (fun _ => true)
    ⟨["E1"], ["E1"]⟩ demoItem rfl).1 (by decide)

end EventServer
